import Mathlib

/-!
Shallow embedding of the real-time transcript assembly and correction
pipeline of the NoteFlux repository.

Sources embedded here:
* `src/lib/services/intelligent-transcript-processor.ts`
  (`IntelligentTranscriptProcessor`: chunk store, `addChunk`, `processChunk`,
  `getFullContextForChunk`, `getProcessedTranscript`, `getRawTranscript`,
  `clear`, `getStats`).
* the `GrokService` client (`correctTranscript`, `calculateConfidence`,
  `detectChanges`, `isAvailable`).
* `src/components/editor/voice-command-processor.tsx`
  (`VoiceCommandProcessor`: command table, `processPatternMatching`,
  `processBufferedStream`).

Modelling conventions:
* JavaScript numbers are modelled as `ℚ` (every arithmetic operation the
  code performs on them — counting words, dividing two small naturals,
  `Math.max` with `0.3`, summing confidences — is exact in binary floating
  point on the sizes involved, so `ℚ` is observationally faithful).
* The asynchronous `await` of the Oracle call splits `processChunk` into a
  synchronous start (up to the `await`) and a completion step; in-flight
  requests live in an explicit `pending` list, and completions may be
  interleaved in any order with further calls, as on the JS event loop.
* The source mutates the chunk object captured before the `await`; after
  `clear()` that object is no longer in the (freshly re-assigned) `chunks`
  array, so the mutation is invisible through every getter.  We model the
  completion as an id-addressed update of the current list, which has the
  same observable behaviour as long as ids are distinct (chunk ids embed
  `Date.now()` plus a random suffix; the model replaces that environmental
  uniqueness source with a counter).
-/

namespace NoteFlux

/-! ## JavaScript string primitives used by the source

The JS string methods the code calls (`trim`, `toLowerCase`, `includes`,
`split(/\s+/)`) are modelled directly over the character list, following
their JS semantics. -/

/-- JS `\s` test for the characters that occur in this code base. -/
def isJsWhitespace (c : Char) : Bool :=
  c = ' ' || c = '\t' || c = '\n' || c = '\r'

/-- JS `str.trim()`: strip whitespace from both ends. -/
def jsTrim (s : String) : String :=
  String.mk
    (((s.data.dropWhile isJsWhitespace).reverse.dropWhile isJsWhitespace).reverse)

/-- JS `str.toLowerCase()` (character-wise, ASCII suffices here). -/
def jsToLower (s : String) : String :=
  String.mk (s.data.map Char.toLower)

/-- Does the second list occur at the head of the first? -/
def charsStartWith : List Char → List Char → Bool
  | [], _ => true
  | _ :: _, [] => false
  | a :: as, b :: bs => a = b && charsStartWith as bs

/-- Does `pat` occur contiguously anywhere in the list? -/
def charsContain (pat : List Char) : List Char → Bool
  | [] => charsStartWith pat []
  | c :: cs => charsStartWith pat (c :: cs) || charsContain pat cs

/-- JS `str.includes(pat)`. -/
def jsIncludes (s pat : String) : Bool :=
  charsContain pat.data s.data

/-- Drop a maximal run of whitespace characters from the front. -/
def dropWsRun : List Char → List Char
  | [] => []
  | c :: cs => if isJsWhitespace c then dropWsRun cs else c :: cs

theorem dropWsRun_length_le : ∀ l : List Char, (dropWsRun l).length ≤ l.length := by
  intro l
  induction l with
  | nil => simp [dropWsRun]
  | cons c cs ih =>
    simp only [dropWsRun]
    split
    · exact Nat.le_succ_of_le ih
    · simp

/-- Worker for `jsSplitWs`: `cur` is the (reversed) token being read. -/
def jsSplitWsAux : List Char → List Char → List (List Char)
  | [], cur => [cur.reverse]
  | c :: cs, cur =>
    if isJsWhitespace c then cur.reverse :: jsSplitWsAux (dropWsRun cs) []
    else jsSplitWsAux cs (c :: cur)
termination_by l _ => l.length
decreasing_by
  · exact Nat.lt_succ_of_le (dropWsRun_length_le cs)
  · simp

/-- JS `str.split(/\s+/)`: split at maximal whitespace runs.  Leading or
trailing whitespace yields an empty first or last token, and the empty
string yields `[""]`, exactly as in JavaScript. -/
def jsSplitWs (s : String) : List String :=
  (jsSplitWsAux s.data []).map (fun l => String.mk l)

/-! ## Correction Oracle Client (`GrokService`) -/

/-- One entry of the `changes` list of a `CorrectionResult`. -/
structure TranscriptChange where
  original : String
  corrected : String
  kind : String
  deriving Repr, DecidableEq

/-- The CorrectionResult record of the GrokService client. -/
structure CorrectionResult where
  correctedText : String
  confidence : ℚ
  changes : List TranscriptChange
  deriving Repr, DecidableEq

/-- What the single `fetch` of `correctTranscript` can come back with:
a 2xx response whose parsed body has an optional message content, a
non-2xx HTTP response, or a network-level failure (rejected promise). -/
inductive OracleOutcome where
  | ok (content : Option String)
  | httpError
  | netError
  deriving Repr, DecidableEq

/-- The degraded result `{correctedText: text, confidence: 0, changes: []}`. -/
def fallbackResult (text : String) : CorrectionResult :=
  { correctedText := text, confidence := 0, changes := [] }

/-- Model of `GrokService.calculateConfidence`: `1.0` on identical texts, otherwise
`Math.max(0.3, commonWords.length / maxLength)` over the lower-cased
whitespace-split word lists. -/
def calculateConfidence (original corrected : String) : ℚ :=
  if original = corrected then 1
  else
    let originalWords := jsSplitWs (jsToLower original)
    let correctedWords := jsSplitWs (jsToLower corrected)
    let maxLength := max originalWords.length correctedWords.length
    let commonWords := originalWords.filter (fun w => correctedWords.contains w)
    max (3 / 10) ((commonWords.length : ℚ) / (maxLength : ℚ))

/-- Model of `GrokService.detectChanges`: a single full-text `correction` entry when
the texts differ other than by case. -/
def detectChanges (original corrected : String) : List TranscriptChange :=
  if original = corrected then []
  else if jsToLower original ≠ jsToLower corrected then
    [{ original := original, corrected := corrected, kind := "correction" }]
  else []

/-- Model of `GrokService.correctTranscript`.  With no API key it short-circuits to
the fallback; otherwise the `try`/`catch` turns every HTTP or network
failure into the fallback, and a 2xx response yields
`data.choices?.[0]?.message?.content?.trim() || text` (so an absent or
all-whitespace content falls back to `text`).  The `context` argument is
used only inside the generated prompt and never affects the result.  The
function is total: no branch propagates an exception to the caller. -/
def correctTranscript (apiKey : String) (outcome : OracleOutcome)
    (text : String) (context : List String) : CorrectionResult :=
  if apiKey = "" then fallbackResult text
  else
    match outcome with
    | .ok content =>
      let t := (content.map jsTrim).getD ""
      let correctedText := if t = "" then text else t
      { correctedText := correctedText
        confidence := calculateConfidence text correctedText
        changes := detectChanges text correctedText }
    | .httpError => fallbackResult text
    | .netError => fallbackResult text

/-- Model of `GrokService.isAvailable`: `false` without a key, otherwise the `ok`
flag of the `/models` probe (`none` models a rejected fetch, caught and
turned into `false`). -/
def isAvailable (apiKey : String) (probe : Option Bool) : Bool :=
  if apiKey = "" then false else probe.getD false

/-! ## Chunk store (`IntelligentTranscriptProcessor`) -/

/-- The TranscriptChunk record of the processor.  `corrected`/`confidence` are the
optional fields, `none` standing for JS `undefined`. -/
structure TranscriptChunk where
  id : String
  text : String
  timestamp : Nat
  isFinal : Bool
  corrected : Option String
  confidence : Option ℚ
  isProcessing : Bool
  deriving Repr, DecidableEq

/-- JS truthiness of an optional string field (`undefined` and `""` are
falsy). -/
def truthyOpt : Option String → Bool
  | none => false
  | some s => s ≠ ""

/-- The value of `chunk.corrected || chunk.text` as evaluated by JS: the corrected text
when present and non-empty, else the raw text. -/
def correctedOrText (c : TranscriptChunk) : String :=
  match c.corrected with
  | some s => if s = "" then c.text else s
  | none => c.text

/-- Chunk ids in the source are `chunk_${Date.now()}_${random}`; the model
replaces the clock/randomness (whose role is only to make ids distinct)
with a per-processor counter rendered in unary, keeping the `chunk_`
prefix. -/
def mkChunkId (n : Nat) : String :=
  "chunk_" ++ String.mk (List.replicate n 'x')

/-- One in-flight Oracle request: issued for chunk `chunkId`, carrying the
chunk text and the context computed at issue time. -/
structure PendingReq where
  chunkId : String
  text : String
  context : List String
  deriving Repr, DecidableEq

/-- Processor state: the chunk array, the set of Oracle requests issued
but not yet completed, and the id counter. -/
structure ProcState where
  chunks : List TranscriptChunk
  pending : List PendingReq
  nextId : Nat
  deriving Repr, DecidableEq

def initState : ProcState := { chunks := [], pending := [], nextId := 0 }

/-- Model of `getFullContextForChunk`: empty at index `0`, otherwise the singleton
list holding the trimmed space-join of the corrected-or-raw text of every
prior chunk (dropped when that join trims to empty). -/
def getFullContextForChunk (chunks : List TranscriptChunk) (chunkIndex : Nat) :
    List String :=
  if chunkIndex = 0 then []
  else
    let previousChunks := chunks.take chunkIndex
    let fullPreviousText :=
      jsTrim (String.intercalate " " (previousChunks.map correctedOrText))
    if fullPreviousText = "" then [] else [fullPreviousText]

/-- The synchronous prefix of `processChunk`, up to the `await`: find the
chunk, apply the `isProcessing || corrected` guard, mark the chunk as
processing and issue the Oracle request with the full prior context.
(The source mutates the chunk found at `findIndex`; under distinct ids the
id-addressed update below is the same.) -/
def markProcessing (chunkId : String) (c : TranscriptChunk) : TranscriptChunk :=
  if c.id = chunkId then { c with isProcessing := true } else c

def processChunkStart (s : ProcState) (chunkId : String) : ProcState :=
  match s.chunks.findIdx? (fun c => c.id = chunkId) with
  | none => s
  | some chunkIndex =>
    match s.chunks[chunkIndex]? with
    | none => s
    | some chunk =>
      if chunk.isProcessing || truthyOpt chunk.corrected then s
      else
        { s with
          chunks := s.chunks.map (markProcessing chunkId)
          pending := s.pending ++
            [{ chunkId := chunkId, text := chunk.text
               context := getFullContextForChunk s.chunks chunkIndex }] }

/-- The chunk record `addChunk` builds (before any processing starts).
The JS `Date.now()` timestamp is modelled by the logical counter. -/
def freshChunk (s : ProcState) (text : String) (isFinal : Bool) : TranscriptChunk :=
  { id := mkChunkId s.nextId, text := jsTrim text, timestamp := s.nextId
    isFinal := isFinal, corrected := none, confidence := none
    isProcessing := false }

/-- Model of `addChunk(text, isFinal)`: always generates (and returns) a fresh id;
appends a chunk only when the trimmed text is non-empty, and then starts
processing it when `isFinal || text.length > 10`. -/
def addChunk (s : ProcState) (text : String) (isFinal : Bool) :
    String × ProcState :=
  let chunkId := mkChunkId s.nextId
  let chunk := freshChunk s text isFinal
  if chunk.text = "" then
    (chunkId, { s with nextId := s.nextId + 1 })
  else
    let s' := { s with chunks := s.chunks ++ [chunk], nextId := s.nextId + 1 }
    if isFinal || chunk.text.length > 10 then
      (chunkId, processChunkStart s' chunkId)
    else
      (chunkId, s')

/-- How an awaited Oracle call can come back to `processChunk`: with a
`CorrectionResult`, or by throwing (the `catch` branch). -/
inductive CallOutcome where
  | returns (res : CorrectionResult)
  | throws
  deriving Repr, DecidableEq

/-- The continuation of `processChunk` after the `await`: on a result, set
`corrected`/`confidence` and clear `isProcessing`; on a throw, fall back to
`corrected = chunk.text`, `confidence = 0`.  Addressed by id: if the chunk
was removed meanwhile (by `clear()`), the source mutates a dangling object
and the store is untouched, which the id-addressed map reproduces. -/
def applyOutcomeChunk (chunkId : String) (o : CallOutcome)
    (c : TranscriptChunk) : TranscriptChunk :=
  if c.id = chunkId then
    match o with
    | .returns res =>
      { c with corrected := some res.correctedText
               confidence := some res.confidence, isProcessing := false }
    | .throws =>
      { c with isProcessing := false, corrected := some c.text
               confidence := some 0 }
  else c

def applyOutcome (chunks : List TranscriptChunk) (chunkId : String)
    (o : CallOutcome) : List TranscriptChunk :=
  chunks.map (applyOutcomeChunk chunkId o)

/-- Completion of one in-flight request (in any order), applying `o`. -/
def stepComplete (s : ProcState) (r : PendingReq) (o : CallOutcome) : ProcState :=
  if r ∈ s.pending then
    { s with chunks := applyOutcome s.chunks r.chunkId o
             pending := s.pending.erase r }
  else s

/-- Model of `getRawTranscript`: space-join of the raw chunk texts, trimmed. -/
def getRawTranscript (chunks : List TranscriptChunk) : String :=
  jsTrim (String.intercalate " " (chunks.map (fun c => c.text)))

/-- Model of `getProcessedTranscript`, line for line: keep the chunks that
are corrected or not processing; if any of those is corrected, return the
text of the last corrected one; otherwise space-join their raw texts. -/
def getProcessedTranscript (chunks : List TranscriptChunk) : String :=
  let processedChunks :=
    chunks.filter (fun c => truthyOpt c.corrected || !c.isProcessing)
  if processedChunks.length = 0 then ""
  else
    let latestCorrected :=
      (processedChunks.filter (fun c => truthyOpt c.corrected)).getLast?
    match latestCorrected with
    | some c =>
      if truthyOpt c.corrected then c.corrected.getD ""
      else jsTrim (String.intercalate " " (processedChunks.map (fun c => c.text)))
    | none =>
      jsTrim (String.intercalate " " (processedChunks.map (fun c => c.text)))

/-- The record returned by `getStats()`. -/
structure Stats where
  totalChunks : Nat
  processedChunks : Nat
  processingChunks : Nat
  averageConfidence : ℚ
  deriving Repr, DecidableEq

/-- Model of `getStats`: counts use JS truthiness for `corrected` but the
`!== undefined` test for `confidence` (so a confidence of `0` counts). -/
def getStats (chunks : List TranscriptChunk) : Stats :=
  let confidenceScores := (chunks.filter (fun c => c.confidence.isSome)).map
    (fun c => c.confidence.getD 0)
  { totalChunks := chunks.length
    processedChunks := (chunks.filter (fun c => truthyOpt c.corrected)).length
    processingChunks := (chunks.filter (fun c => c.isProcessing)).length
    averageConfidence :=
      if confidenceScores.length > 0 then
        confidenceScores.sum / (confidenceScores.length : ℚ)
      else 0 }

/-- Model of `clear()`: drop every chunk (in-flight requests are not cancelled). -/
def clearChunks (s : ProcState) : ProcState :=
  { s with chunks := [] }

/-- Events of the event loop of the pipeline that touch the chunk store. -/
inductive Event where
  | add (text : String) (isFinal : Bool)
  | complete (r : PendingReq) (o : CallOutcome)
  | clear
  deriving Repr, DecidableEq

/-- One event-loop step. -/
def step (s : ProcState) : Event → ProcState
  | .add text isFinal => (addChunk s text isFinal).2
  | .complete r o => stepComplete s r o
  | .clear => clearChunks s

/-- Run an event trace from the fresh processor. -/
def run (es : List Event) : ProcState :=
  es.foldl step initState

/-- An event trace as produced with no API credential configured: every
completion returns exactly what `correctTranscript "" …` returns, namely
the fallback on the own text of the request (and never throws). -/
def isNoKeyEvent : Event → Bool
  | .add _ _ => true
  | .complete r o => o = CallOutcome.returns (fallbackResult r.text)
  | .clear => false

/-! ## Streaming Command Interpreter (`VoiceCommandProcessor`) -/

/-- One entry of the fixed command table.  The tiptap `action` closure is a
pure editor mutation and is not needed for any claim; the source also
guards its execution with a `try`/`catch` that we do not model (the
modelled actions always succeed). -/
structure VoiceCommand where
  patterns : List String
  description : String
  requiresSelection : Bool
  deriving Repr, DecidableEq

/-- The `commands` table of `VoiceCommandProcessor`, patterns verbatim. -/
def commands : List VoiceCommand :=
  [ { patterns := ["make this bold", "bold this", "make bold", "bold"]
      description := "Make selected text bold", requiresSelection := true },
    { patterns := ["make this italic", "italic this", "make italic", "italic",
                   "italicize this"]
      description := "Make selected text italic", requiresSelection := true },
    { patterns := ["heading one", "heading 1", "make heading one", "h1"]
      description := "Convert to heading 1", requiresSelection := true },
    { patterns := ["heading two", "heading 2", "make heading two", "h2"]
      description := "Convert to heading 2", requiresSelection := true },
    { patterns := ["heading three", "heading 3", "make heading three", "h3"]
      description := "Convert to heading 3", requiresSelection := true },
    { patterns := ["bullet list", "bullet points", "make bullet list",
                   "bulleted list"]
      description := "Create bullet list", requiresSelection := true },
    { patterns := ["numbered list", "number list", "ordered list",
                   "make numbered list"]
      description := "Create numbered list", requiresSelection := true },
    { patterns := ["make quote", "quote this", "block quote", "make this a quote"]
      description := "Convert to quote", requiresSelection := true },
    { patterns := ["center this", "center align", "align center"]
      description := "Center align text", requiresSelection := true },
    { patterns := ["left align", "align left"]
      description := "Left align text", requiresSelection := true },
    { patterns := ["right align", "align right"]
      description := "Right align text", requiresSelection := true },
    { patterns := ["normal text", "make paragraph", "regular text", "paragraph"]
      description := "Convert to normal paragraph", requiresSelection := true },
    { patterns := ["task list", "todo list", "checklist", "make checklist"]
      description := "Create task list", requiresSelection := true } ]

/-- The slice of tiptap editor state the interpreter reads: the selection
endpoints (`editor.state.selection.from`/`.to`). -/
structure EditorState where
  selectionFrom : Nat
  selectionTo : Nat
  deriving Repr, DecidableEq

/-- Model of `processPatternMatching`: with an active selection, scan the command
table for a pattern contained in the lower-cased trimmed buffer; with no
selection the whole table scan is skipped and the result is `false`. -/
def processPatternMatching (text : String) (ed : EditorState) : Bool :=
  let normalizedText := jsTrim (jsToLower text)
  let hasSelection := ed.selectionFrom ≠ ed.selectionTo
  if hasSelection then
    commands.any (fun cmd =>
      cmd.patterns.any (fun p => jsIncludes normalizedText p))
  else false

/-- Interpreter state: the shared text buffer, the single in-flight guard,
and the configured credential.  (The `processingQueue` of recent fragments
only tunes the `useFastMode` flag of the streaming call and is dropped.) -/
structure CmdProcState where
  streamBuffer : String
  isProcessingStream : Bool
  grokApiKey : Option String
  deriving Repr, DecidableEq

/-- What the streaming correction call (`processWithGrokStreaming`) came
back with: it applied a final rewrite and returned `true`, or returned
`false` (no usable output, or an error caught inside it). -/
inductive StreamingAIOutcome where
  | applied
  | notApplied
  deriving Repr, DecidableEq

/-- The buffer retention policy after a successful action
(`partialClearBuffer` in the source): keep the trailing three words when
more than five are present, else clear. -/
def bufferKeepRecentWords (buffer : String) : String :=
  let words := jsSplitWs (jsTrim buffer)
  if words.length > 5 then
    String.intercalate " " (words.drop (words.length - 3)) ++ " "
  else ""

/-- Result of one flush: the new interpreter state, the returned Bool, and
whether a network request was issued. -/
structure FlushResult where
  state : CmdProcState
  acted : Bool
  networkCalled : Bool
  deriving Repr, DecidableEq

/-- Model of `processBufferedStream`: no-op while a flush is in flight or on an
all-whitespace buffer; otherwise local pattern matching first (no network),
then — only with a credential — the streaming correction call; an
over-long (> 300 chars) buffer is cleared on a miss.  The `finally` that
restores `isProcessingStream` is reflected in every exit carrying the
flag of the caller (false). -/
def processBufferedStream (st : CmdProcState) (ed : EditorState)
    (ai : StreamingAIOutcome) : FlushResult :=
  if st.isProcessingStream || jsTrim st.streamBuffer = "" then
    { state := st, acted := false, networkCalled := false }
  else if processPatternMatching st.streamBuffer ed then
    { state := { st with streamBuffer := bufferKeepRecentWords st.streamBuffer }
      acted := true, networkCalled := false }
  else
    match st.grokApiKey with
    | some _ =>
      match ai with
      | .applied =>
        { state := { st with streamBuffer := bufferKeepRecentWords st.streamBuffer }
          acted := true, networkCalled := true }
      | .notApplied =>
        if st.streamBuffer.length > 300 then
          { state := { st with streamBuffer := "" }
            acted := false, networkCalled := true }
        else { state := st, acted := false, networkCalled := true }
    | none =>
      if st.streamBuffer.length > 300 then
        { state := { st with streamBuffer := "" }
          acted := false, networkCalled := false }
      else { state := st, acted := false, networkCalled := false }

/-! ## Supporting lemmas -/

theorem mkChunkId_length (n : Nat) : (mkChunkId n).length = 6 + n := by
  simp [mkChunkId, String.length_append]
  rfl

theorem mkChunkId_injective : Function.Injective mkChunkId := by
  intro a b h
  have h2 := congrArg String.length h
  simpa [mkChunkId_length] using h2

theorem mkChunkId_ne_empty (n : Nat) : mkChunkId n ≠ "" := by
  intro h
  have h2 := congrArg String.length h
  simp [mkChunkId_length] at h2

theorem jsSplitWsAux_ne_nil (l cur : List Char) : jsSplitWsAux l cur ≠ [] := by
  induction l, cur using jsSplitWsAux.induct with
  | case1 cur => simp [jsSplitWsAux]
  | case2 c cs cur hws ih => simp [jsSplitWsAux, hws]
  | case3 c cs cur hws ih => simp [jsSplitWsAux, hws]; exact ih

theorem jsSplitWs_length_pos (s : String) : 0 < (jsSplitWs s).length := by
  simp [jsSplitWs]
  exact List.length_pos.mpr (jsSplitWsAux_ne_nil _ _)

theorem markProcessing_noop (cid : String) (c : TranscriptChunk)
    (h : c.id ≠ cid) : markProcessing cid c = c := by
  unfold markProcessing
  rw [if_neg h]

theorem map_markProcessing_eq_self (l : List TranscriptChunk) (cid : String)
    (h : ∀ c ∈ l, c.id ≠ cid) : l.map (markProcessing cid) = l := by
  induction l with
  | nil => rfl
  | cons a t ih =>
    rw [List.map_cons, markProcessing_noop _ _ (h a (by simp)),
      ih (fun c hc => h c (by simp [hc]))]

/-- Shape of `addChunk` on text that trims to empty: only the id counter
moves. -/
theorem addChunk_blank (s : ProcState) (text : String) (isFinal : Bool)
    (h : jsTrim text = "") :
    addChunk s text isFinal =
      (mkChunkId s.nextId, { s with nextId := s.nextId + 1 }) := by
  unfold addChunk
  simp [freshChunk, h]

/-- Shape of `addChunk` on a non-final fragment at most 10 characters
long: the chunk is stored pending, no request is issued. -/
theorem addChunk_noTrigger (s : ProcState) (text : String) (isFinal : Bool)
    (h : jsTrim text ≠ "")
    (htrig : (isFinal || (jsTrim text).length > 10) = false) :
    addChunk s text isFinal =
      (mkChunkId s.nextId,
        { chunks := s.chunks ++ [freshChunk s text isFinal]
          pending := s.pending, nextId := s.nextId + 1 }) := by
  unfold addChunk
  simp only [freshChunk] at htrig ⊢
  simp [h, htrig]

/-- Shape of `addChunk` when correction triggers: the chunk is appended
marked processing and one Oracle request joins the pending list. -/
theorem addChunk_trigger (s : ProcState) (text : String) (isFinal : Bool)
    (hfresh : ∀ c ∈ s.chunks, c.id ≠ mkChunkId s.nextId)
    (h : jsTrim text ≠ "")
    (htrig : (isFinal || (jsTrim text).length > 10) = true) :
    addChunk s text isFinal =
      (mkChunkId s.nextId,
        { chunks := s.chunks ++
            [{ freshChunk s text isFinal with isProcessing := true }]
          pending := s.pending ++
            [{ chunkId := mkChunkId s.nextId, text := jsTrim text
               context := getFullContextForChunk
                 (s.chunks ++ [freshChunk s text isFinal]) s.chunks.length }]
          nextId := s.nextId + 1 }) := by
  have hfind : (s.chunks ++ [freshChunk s text isFinal]).findIdx?
      (fun c => c.id = mkChunkId s.nextId) = some s.chunks.length := by
    rw [List.findIdx?_append]
    have h1 : s.chunks.findIdx? (fun c => c.id = mkChunkId s.nextId) = none :=
      List.findIdx?_eq_none_iff.mpr (fun c hc => by simpa using hfresh c hc)
    have h2 : ([freshChunk s text isFinal] : List TranscriptChunk).findIdx?
        (fun c => c.id = mkChunkId s.nextId) = some 0 := by
      simp [List.findIdx?_cons, freshChunk]
    rw [h1, h2]
    simp
  have hget : (s.chunks ++ [freshChunk s text isFinal])[s.chunks.length]? =
      some (freshChunk s text isFinal) := by
    rw [List.getElem?_append_right (le_refl _)]
    simp
  unfold addChunk
  simp only []
  rw [if_neg (by simpa [freshChunk] using h),
    if_pos (by simpa [freshChunk] using htrig)]
  unfold processChunkStart
  simp only [hfind, hget]
  rw [if_neg (by simp [freshChunk, truthyOpt])]
  simp only [List.map_append, map_markProcessing_eq_self s.chunks _ hfresh]
  simp [markProcessing, freshChunk]

theorem applyOutcomeChunk_id (cid : String) (o : CallOutcome) (c : TranscriptChunk) :
    (applyOutcomeChunk cid o c).id = c.id := by
  unfold applyOutcomeChunk
  cases o <;> split <;> rfl

theorem applyOutcomeChunk_text (cid : String) (o : CallOutcome) (c : TranscriptChunk) :
    (applyOutcomeChunk cid o c).text = c.text := by
  unfold applyOutcomeChunk
  cases o <;> split <;> rfl

theorem applyOutcomeChunk_noop (cid : String) (o : CallOutcome) (c : TranscriptChunk)
    (h : c.id ≠ cid) : applyOutcomeChunk cid o c = c := by
  unfold applyOutcomeChunk
  rw [if_neg h]

theorem applyOutcome_eq_self (l : List TranscriptChunk) (cid : String) (o : CallOutcome)
    (h : ∀ c ∈ l, c.id ≠ cid) : applyOutcome l cid o = l := by
  induction l with
  | nil => rfl
  | cons a t ih =>
    rw [applyOutcome, List.map_cons, applyOutcomeChunk_noop _ _ _ (h a (by simp))]
    have := ih (fun c hc => h c (by simp [hc]))
    rw [applyOutcome] at this
    rw [this]

/-- A throwing completion adds exactly one chunk to the processed count
when the addressed chunk was not yet counted. -/
theorem length_filter_truthy_applyThrow (l : List TranscriptChunk) (cid : String)
    (c : TranscriptChunk) (hc : c ∈ l) (hid : c.id = cid)
    (hnodup : (l.map TranscriptChunk.id).Nodup)
    (hne : c.text ≠ "") (hcor : truthyOpt c.corrected = false) :
    ((applyOutcome l cid .throws).filter (fun d => truthyOpt d.corrected)).length
      = (l.filter (fun d => truthyOpt d.corrected)).length + 1 := by
  induction l with
  | nil => cases hc
  | cons a t ih =>
    simp only [List.map_cons, List.nodup_cons] at hnodup
    rw [applyOutcome, List.map_cons]
    rcases List.mem_cons.mp hc with rfl | hct
    · have ht : ∀ d ∈ t, d.id ≠ cid := by
        intro d hd hdc
        have hmem : d.id ∈ List.map TranscriptChunk.id t := List.mem_map_of_mem _ hd
        rw [hdc, ← hid] at hmem
        exact hnodup.1 hmem
      have htt := applyOutcome_eq_self t cid CallOutcome.throws ht
      rw [applyOutcome] at htt
      rw [htt]
      have hupd : applyOutcomeChunk cid CallOutcome.throws c =
          { c with isProcessing := false, corrected := some c.text
                   confidence := some 0 } := by
        unfold applyOutcomeChunk
        rw [if_pos hid]
      rw [hupd, List.filter_cons, List.filter_cons]
      rw [if_pos (by simp [truthyOpt, hne]), if_neg (by simp [hcor])]
      simp
    · have haid : a.id ≠ cid := by
        intro hac
        have hmem : c.id ∈ List.map TranscriptChunk.id t := List.mem_map_of_mem _ hct
        rw [hid, ← hac] at hmem
        exact hnodup.1 hmem
      rw [applyOutcomeChunk_noop _ _ _ haid]
      have ihh := ih hct hnodup.2
      rw [applyOutcome] at ihh
      rw [List.filter_cons, List.filter_cons]
      by_cases hta : truthyOpt a.corrected = true
      · rw [if_pos hta, if_pos hta]
        simp only [List.length_cons, ihh]
      · rw [if_neg hta, if_neg hta]
        exact ihh

theorem stepComplete_chunks_nil (s : ProcState) (r : PendingReq) (o : CallOutcome)
    (h : s.chunks = []) : (stepComplete s r o).chunks = [] := by
  unfold stepComplete
  split
  · simp [applyOutcome, h]
  · exact h

theorem foldl_complete_chunks_nil (s : ProcState)
    (completions : List (PendingReq × CallOutcome)) (h : s.chunks = []) :
    (completions.foldl (fun t rc => stepComplete t rc.1 rc.2) s).chunks = [] := by
  induction completions generalizing s with
  | nil => exact h
  | cons rc rest ih => exact ih _ (stepComplete_chunks_nil _ _ _ h)

theorem getProcessedTranscript_nil : getProcessedTranscript [] = "" := by decide

theorem getRawTranscript_nil : getRawTranscript [] = "" := by decide
/-! ## Invariant of no-credential runs -/

/-- Reachability invariant of the chunk store along no-credential event
traces: ids are counter-generated and below the counter, texts are
non-empty, every correction equals the raw text of its chunk, pending
requests carry the text of their chunk, and every processing chunk has a
pending request. -/
structure NoKeyInv (s : ProcState) : Prop where
  idsBelow : ∀ c ∈ s.chunks, ∃ k, k < s.nextId ∧ c.id = mkChunkId k
  pendBelow : ∀ r ∈ s.pending, ∃ k, k < s.nextId ∧ r.chunkId = mkChunkId k
  textNe : ∀ c ∈ s.chunks, c.text ≠ ""
  corrEq : ∀ c ∈ s.chunks, ∀ v, c.corrected = some v → v = c.text
  pendMatch : ∀ r ∈ s.pending, ∀ c ∈ s.chunks, c.id = r.chunkId → c.text = r.text
  procPend : ∀ c ∈ s.chunks, c.isProcessing = true →
    ∃ r ∈ s.pending, r.chunkId = c.id

theorem fresh_of_idsBelow (s : ProcState)
    (h : ∀ c ∈ s.chunks, ∃ k, k < s.nextId ∧ c.id = mkChunkId k) :
    ∀ c ∈ s.chunks, c.id ≠ mkChunkId s.nextId := by
  intro c hc heq
  obtain ⟨k, hk, he⟩ := h c hc
  rw [he] at heq
  exact absurd (mkChunkId_injective heq) (Nat.ne_of_lt hk)

theorem noKeyInv_init : NoKeyInv initState := by
  constructor <;> intro x hx <;> cases hx

theorem noKeyInv_add (s : ProcState) (text : String) (isFinal : Bool)
    (hinv : NoKeyInv s) : NoKeyInv (addChunk s text isFinal).2 := by
  have hfresh := fresh_of_idsBelow s hinv.idsBelow
  by_cases hb : jsTrim text = ""
  · rw [addChunk_blank s text isFinal hb]
    exact ⟨fun c hc => (hinv.idsBelow c hc).imp
        (fun k hk => ⟨Nat.lt_succ_of_lt hk.1, hk.2⟩),
      fun r hr => (hinv.pendBelow r hr).imp
        (fun k hk => ⟨Nat.lt_succ_of_lt hk.1, hk.2⟩),
      hinv.textNe, hinv.corrEq, hinv.pendMatch, hinv.procPend⟩
  · by_cases htrig : (isFinal || (jsTrim text).length > 10) = true
    · rw [addChunk_trigger s text isFinal hfresh hb htrig]
      constructor
      · intro c hc
        rcases List.mem_append.mp hc with hc | hc
        · exact (hinv.idsBelow c hc).imp (fun k hk => ⟨Nat.lt_succ_of_lt hk.1, hk.2⟩)
        · simp only [List.mem_singleton] at hc
          subst hc
          exact ⟨s.nextId, Nat.lt_succ_self _, rfl⟩
      · intro r hr
        rcases List.mem_append.mp hr with hr | hr
        · exact (hinv.pendBelow r hr).imp (fun k hk => ⟨Nat.lt_succ_of_lt hk.1, hk.2⟩)
        · simp only [List.mem_singleton] at hr
          subst hr
          exact ⟨s.nextId, Nat.lt_succ_self _, rfl⟩
      · intro c hc
        rcases List.mem_append.mp hc with hc | hc
        · exact hinv.textNe c hc
        · simp only [List.mem_singleton] at hc
          subst hc
          simpa [freshChunk] using hb
      · intro c hc v hv
        rcases List.mem_append.mp hc with hc | hc
        · exact hinv.corrEq c hc v hv
        · simp only [List.mem_singleton] at hc
          subst hc
          simp [freshChunk] at hv
      · intro r hr c hc hidm
        rcases List.mem_append.mp hr with hr | hr <;>
          rcases List.mem_append.mp hc with hc | hc
        · exact hinv.pendMatch r hr c hc hidm
        · simp only [List.mem_singleton] at hc
          subst hc
          obtain ⟨k, hk, he⟩ := hinv.pendBelow r hr
          rw [he] at hidm
          have : s.nextId = k := mkChunkId_injective (by simpa [freshChunk] using hidm)
          omega
        · simp only [List.mem_singleton] at hr
          subst hr
          exact absurd hidm (hfresh c hc)
        · simp only [List.mem_singleton] at hr hc
          subst hr; subst hc
          rfl
      · intro c hc hproc
        rcases List.mem_append.mp hc with hc | hc
        · obtain ⟨r, hr, hre⟩ := hinv.procPend c hc hproc
          exact ⟨r, List.mem_append_left _ hr, hre⟩
        · simp only [List.mem_singleton] at hc
          subst hc
          refine ⟨_, List.mem_append_right _ (List.mem_singleton_self _), ?_⟩
          simp [freshChunk]
    · rw [addChunk_noTrigger s text isFinal hb (by simpa using htrig)]
      constructor
      · intro c hc
        rcases List.mem_append.mp hc with hc | hc
        · exact (hinv.idsBelow c hc).imp (fun k hk => ⟨Nat.lt_succ_of_lt hk.1, hk.2⟩)
        · simp only [List.mem_singleton] at hc
          subst hc
          exact ⟨s.nextId, Nat.lt_succ_self _, rfl⟩
      · intro r hr
        exact (hinv.pendBelow r hr).imp (fun k hk => ⟨Nat.lt_succ_of_lt hk.1, hk.2⟩)
      · intro c hc
        rcases List.mem_append.mp hc with hc | hc
        · exact hinv.textNe c hc
        · simp only [List.mem_singleton] at hc
          subst hc
          simpa [freshChunk] using hb
      · intro c hc v hv
        rcases List.mem_append.mp hc with hc | hc
        · exact hinv.corrEq c hc v hv
        · simp only [List.mem_singleton] at hc
          subst hc
          simp [freshChunk] at hv
      · intro r hr c hc hidm
        rcases List.mem_append.mp hc with hc | hc
        · exact hinv.pendMatch r hr c hc hidm
        · simp only [List.mem_singleton] at hc
          subst hc
          obtain ⟨k, hk, he⟩ := hinv.pendBelow r hr
          rw [he] at hidm
          have : s.nextId = k := mkChunkId_injective (by simpa [freshChunk] using hidm)
          omega
      · intro c hc hproc
        rcases List.mem_append.mp hc with hc | hc
        · obtain ⟨r, hr, hre⟩ := hinv.procPend c hc hproc
          exact ⟨r, hr, hre⟩
        · simp only [List.mem_singleton] at hc
          subst hc
          simp [freshChunk] at hproc

theorem noKeyInv_complete (s : ProcState) (r : PendingReq)
    (hinv : NoKeyInv s) :
    NoKeyInv (stepComplete s r (.returns (fallbackResult r.text))) := by
  unfold stepComplete
  split
  case isFalse => exact hinv
  case isTrue hr =>
    have hid : ∀ c, (applyOutcomeChunk r.chunkId
        (CallOutcome.returns (fallbackResult r.text)) c).id = c.id :=
      fun c => applyOutcomeChunk_id _ _ c
    have htx : ∀ c, (applyOutcomeChunk r.chunkId
        (CallOutcome.returns (fallbackResult r.text)) c).text = c.text :=
      fun c => applyOutcomeChunk_text _ _ c
    constructor
    · intro c' hc'
      obtain ⟨c, hc, rfl⟩ := List.mem_map.mp hc'
      rw [hid c]
      exact hinv.idsBelow c hc
    · intro r' hr'
      exact hinv.pendBelow r' (List.mem_of_mem_erase hr')
    · intro c' hc'
      obtain ⟨c, hc, rfl⟩ := List.mem_map.mp hc'
      rw [htx c]
      exact hinv.textNe c hc
    · intro c' hc' v hv
      obtain ⟨c, hc, rfl⟩ := List.mem_map.mp hc'
      rw [htx c]
      unfold applyOutcomeChunk at hv
      by_cases hcid : c.id = r.chunkId
      · rw [if_pos hcid] at hv
        simp only [fallbackResult] at hv
        have : v = r.text := by
          simpa using hv.symm
        rw [this]
        exact (hinv.pendMatch r hr c hc hcid).symm
      · rw [if_neg hcid] at hv
        exact hinv.corrEq c hc v hv
    · intro r' hr' c' hc' hidm
      obtain ⟨c, hc, rfl⟩ := List.mem_map.mp hc'
      rw [htx c]
      rw [hid c] at hidm
      exact hinv.pendMatch r' (List.mem_of_mem_erase hr') c hc hidm
    · intro c' hc' hproc
      obtain ⟨c, hc, rfl⟩ := List.mem_map.mp hc'
      rw [hid c]
      by_cases hcid : c.id = r.chunkId
      · exfalso
        unfold applyOutcomeChunk at hproc
        rw [if_pos hcid] at hproc
        simp at hproc
      · have hcc : applyOutcomeChunk r.chunkId
            (CallOutcome.returns (fallbackResult r.text)) c = c :=
          applyOutcomeChunk_noop _ _ _ hcid
        rw [hcc] at hproc
        obtain ⟨r', hr', hre⟩ := hinv.procPend c hc hproc
        have hrne : r' ≠ r := by
          intro hEq
          rw [hEq] at hre
          exact hcid hre.symm
        exact ⟨r', (List.mem_erase_of_ne hrne).mpr hr', hre⟩

theorem noKeyInv_step (s : ProcState) (e : Event) (he : isNoKeyEvent e = true)
    (hinv : NoKeyInv s) : NoKeyInv (step s e) := by
  cases e with
  | add text isFinal => exact noKeyInv_add s text isFinal hinv
  | complete r o =>
    have ho : o = CallOutcome.returns (fallbackResult r.text) := by
      simpa [isNoKeyEvent] using he
    subst ho
    exact noKeyInv_complete s r hinv
  | clear => simp [isNoKeyEvent] at he

theorem noKeyInv_foldl (es : List Event) (s : ProcState)
    (hk : ∀ e ∈ es, isNoKeyEvent e = true) (hs : NoKeyInv s) :
    NoKeyInv (es.foldl step s) := by
  induction es generalizing s with
  | nil => exact hs
  | cons e t ih =>
    exact ih _ (fun e' he' => hk e' (List.mem_cons_of_mem _ he'))
      (noKeyInv_step s e (hk e (List.mem_cons_self _ _)) hs)

/-- In a settled invariant state the processed transcript is the raw text
of the most recently corrected chunk, or the raw transcript when nothing
was corrected. -/
theorem settled_processed_transcript (s : ProcState) (hinv : NoKeyInv s)
    (hp : s.pending = []) :
    match (s.chunks.filter (fun c => truthyOpt c.corrected)).getLast? with
    | some c => getProcessedTranscript s.chunks = c.text
    | none => getProcessedTranscript s.chunks = getRawTranscript s.chunks := by
  have hnp : ∀ c ∈ s.chunks, c.isProcessing = false := by
    intro c hc
    cases hcp : c.isProcessing
    · rfl
    · obtain ⟨r, hr, _⟩ := hinv.procPend c hc hcp
      rw [hp] at hr
      cases hr
  have hfilter : s.chunks.filter (fun c => truthyOpt c.corrected || !c.isProcessing)
      = s.chunks :=
    List.filter_eq_self.mpr (fun c hc => by rw [hnp c hc]; simp)
  unfold getProcessedTranscript
  simp only [hfilter]
  cases hlast : (s.chunks.filter (fun c => truthyOpt c.corrected)).getLast? with
  | some c =>
    have hcmem : c ∈ s.chunks.filter (fun c => truthyOpt c.corrected) :=
      List.mem_of_mem_getLast? hlast
    have hcm : c ∈ s.chunks := (List.mem_filter.mp hcmem).1
    have hct : truthyOpt c.corrected = true := (List.mem_filter.mp hcmem).2
    have hne : ¬ s.chunks.length = 0 := by
      intro h0
      rw [List.length_eq_zero] at h0
      rw [h0] at hcm
      cases hcm
    rw [if_neg hne]
    simp only [hlast]
    rw [if_pos hct]
    obtain ⟨v, hv⟩ : ∃ v, c.corrected = some v := by
      cases hcc : c.corrected
      · rw [hcc] at hct; simp [truthyOpt] at hct
      · exact ⟨_, rfl⟩
    rw [hv]
    simp only [Option.getD_some]
    exact hinv.corrEq c hcm v hv
  | none =>
    by_cases h0 : s.chunks.length = 0
    · rw [if_pos h0]
      rw [List.length_eq_zero] at h0
      rw [h0]
      rfl
    · rw [if_neg h0]
      simp only [hlast]
      rfl

/-! ## Claims -/

/-- C1 (amended): with no API credential configured, after every issued
correction settles (no pending request), every corrected chunk carries its
own raw text as correction; `getProcessedTranscript()` returns the raw
text of the most recently corrected chunk when one exists, and
`getRawTranscript()` when no chunk was corrected; and
`isServiceAvailable()` resolves false.  The original claim — that the
processed transcript equals the raw transcript for every input sequence —
fails as soon as two chunks get the fallback correction, because
`getProcessedTranscript` returns only the latest corrected text. -/
theorem no_key_settled_spec (es : List Event)
    (hk : ∀ e ∈ es, isNoKeyEvent e = true)
    (hs : (run es).pending = []) :
    (∀ c ∈ (run es).chunks, ∀ v, c.corrected = some v → v = c.text) ∧
    (match ((run es).chunks.filter (fun c => truthyOpt c.corrected)).getLast? with
     | some c => getProcessedTranscript (run es).chunks = c.text
     | none => getProcessedTranscript (run es).chunks =
        getRawTranscript (run es).chunks) ∧
    (∀ probe, isAvailable "" probe = false) :=
  have hinv := noKeyInv_foldl es initState hk noKeyInv_init
  ⟨hinv.corrEq, settled_processed_transcript _ hinv hs, fun _ => rfl⟩

/-- Witness for C1: a settled single-chunk no-credential run. -/
theorem no_key_settled_spec_witness :
    (∀ c ∈ (run [Event.add "hi there everyone" true,
        Event.complete { chunkId := mkChunkId 0, text := "hi there everyone"
                         context := [] }
          (CallOutcome.returns (fallbackResult "hi there everyone"))]).chunks,
      ∀ v, c.corrected = some v → v = c.text) ∧
    (match ((run [Event.add "hi there everyone" true,
        Event.complete { chunkId := mkChunkId 0, text := "hi there everyone"
                         context := [] }
          (CallOutcome.returns (fallbackResult "hi there everyone"))]).chunks.filter
        (fun c => truthyOpt c.corrected)).getLast? with
     | some c => getProcessedTranscript (run [Event.add "hi there everyone" true,
        Event.complete { chunkId := mkChunkId 0, text := "hi there everyone"
                         context := [] }
          (CallOutcome.returns (fallbackResult "hi there everyone"))]).chunks = c.text
     | none => getProcessedTranscript (run [Event.add "hi there everyone" true,
        Event.complete { chunkId := mkChunkId 0, text := "hi there everyone"
                         context := [] }
          (CallOutcome.returns (fallbackResult "hi there everyone"))]).chunks =
        getRawTranscript (run [Event.add "hi there everyone" true,
        Event.complete { chunkId := mkChunkId 0, text := "hi there everyone"
                         context := [] }
          (CallOutcome.returns (fallbackResult "hi there everyone"))]).chunks) ∧
    (∀ probe, isAvailable "" probe = false) :=
  no_key_settled_spec
    [Event.add "hi there everyone" true,
     Event.complete { chunkId := mkChunkId 0, text := "hi there everyone"
                      context := [] }
       (CallOutcome.returns (fallbackResult "hi there everyone"))]
    (by decide) (by decide)

/-- Counterexample to C1 as stated: a settled no-credential run of two
final chunks, on which the processed transcript (the latest corrected
text, here the second chunk alone) differs from the raw transcript (the
join of both chunks). -/
theorem no_key_processed_ne_raw_counterexample :
    (∀ e ∈ [Event.add "hello world one" true,
        Event.complete { chunkId := mkChunkId 0, text := "hello world one"
                         context := [] }
          (CallOutcome.returns (fallbackResult "hello world one")),
        Event.add "the second chunk" true,
        Event.complete { chunkId := mkChunkId 1, text := "the second chunk"
                         context := ["hello world one"] }
          (CallOutcome.returns (fallbackResult "the second chunk"))],
      isNoKeyEvent e = true) ∧
    (run [Event.add "hello world one" true,
        Event.complete { chunkId := mkChunkId 0, text := "hello world one"
                         context := [] }
          (CallOutcome.returns (fallbackResult "hello world one")),
        Event.add "the second chunk" true,
        Event.complete { chunkId := mkChunkId 1, text := "the second chunk"
                         context := ["hello world one"] }
          (CallOutcome.returns (fallbackResult "the second chunk"))]).pending = [] ∧
    getProcessedTranscript (run [Event.add "hello world one" true,
        Event.complete { chunkId := mkChunkId 0, text := "hello world one"
                         context := [] }
          (CallOutcome.returns (fallbackResult "hello world one")),
        Event.add "the second chunk" true,
        Event.complete { chunkId := mkChunkId 1, text := "the second chunk"
                         context := ["hello world one"] }
          (CallOutcome.returns (fallbackResult "the second chunk"))]).chunks
      ≠ getRawTranscript (run [Event.add "hello world one" true,
        Event.complete { chunkId := mkChunkId 0, text := "hello world one"
                         context := [] }
          (CallOutcome.returns (fallbackResult "hello world one")),
        Event.add "the second chunk" true,
        Event.complete { chunkId := mkChunkId 1, text := "the second chunk"
                         context := ["hello world one"] }
          (CallOutcome.returns (fallbackResult "the second chunk"))]).chunks := by
  decide

/-- C2: `correctTranscript` never propagates an exception (it is total by
construction), and on a missing API key, a non-2xx HTTP response, or a
network failure it returns the degraded result
`correctedText = text, confidence = 0, changes = []`. -/
theorem correctTranscript_degrades (apiKey text : String) (context : List String)
    (outcome : OracleOutcome)
    (h : apiKey = "" ∨ outcome = .httpError ∨ outcome = .netError) :
    correctTranscript apiKey outcome text context =
      { correctedText := text, confidence := 0, changes := [] } := by
  rcases h with h | h | h <;> subst h
  · simp [correctTranscript, fallbackResult]
  · unfold correctTranscript; split <;> rfl
  · unfold correctTranscript; split <;> rfl

/-- Witness for C2 at a concrete input. -/
theorem correctTranscript_degrades_witness :
    correctTranscript "" OracleOutcome.netError "hello world" [] =
      { correctedText := "hello world", confidence := 0, changes := [] } :=
  correctTranscript_degrades "" "hello world" [] OracleOutcome.netError (Or.inl rfl)

/-- C3: when the Oracle call of a chunk throws, the completion leaves that
chunk with `corrected = text`, `confidence = 0`, `isProcessing = false`,
and `getStats().processedChunks` counts it as processed (one more than
before). -/
theorem oracle_throw_fallback (s : ProcState) (r : PendingReq) (c : TranscriptChunk)
    (hr : r ∈ s.pending) (hc : c ∈ s.chunks) (hid : c.id = r.chunkId)
    (hnodup : (s.chunks.map TranscriptChunk.id).Nodup)
    (hne : c.text ≠ "") (hcor : truthyOpt c.corrected = false) :
    (∃ c' ∈ (stepComplete s r .throws).chunks,
      c'.id = r.chunkId ∧ c'.corrected = some c.text ∧
      c'.confidence = some (0 : ℚ) ∧ c'.isProcessing = false) ∧
    (getStats (stepComplete s r .throws).chunks).processedChunks
      = (getStats s.chunks).processedChunks + 1 := by
  have hstep : (stepComplete s r CallOutcome.throws).chunks =
      applyOutcome s.chunks r.chunkId CallOutcome.throws := by
    unfold stepComplete
    rw [if_pos hr]
  constructor
  · refine ⟨applyOutcomeChunk r.chunkId CallOutcome.throws c, ?_, ?_⟩
    · rw [hstep]
      exact List.mem_map_of_mem _ hc
    · have hupd : applyOutcomeChunk r.chunkId CallOutcome.throws c =
          { c with isProcessing := false, corrected := some c.text
                   confidence := some 0 } := by
        unfold applyOutcomeChunk
        rw [if_pos hid]
      rw [hupd]
      exact ⟨hid, rfl, rfl, rfl⟩
  · rw [hstep]
    simp only [getStats]
    exact length_filter_truthy_applyThrow s.chunks r.chunkId c hc hid hnodup hne hcor

/-- Witness for C3 on a one-chunk store with its request in flight. -/
theorem oracle_throw_fallback_witness :
    (∃ c' ∈ (stepComplete
        { chunks := [{ id := "chunk_", text := "hi there", timestamp := 0,
                       isFinal := true, corrected := none, confidence := none,
                       isProcessing := true }],
          pending := [{ chunkId := "chunk_", text := "hi there", context := [] }],
          nextId := 1 }
        { chunkId := "chunk_", text := "hi there", context := [] } .throws).chunks,
      c'.id = "chunk_" ∧ c'.corrected = some "hi there" ∧
      c'.confidence = some (0 : ℚ) ∧ c'.isProcessing = false) ∧
    (getStats (stepComplete
        { chunks := [{ id := "chunk_", text := "hi there", timestamp := 0,
                       isFinal := true, corrected := none, confidence := none,
                       isProcessing := true }],
          pending := [{ chunkId := "chunk_", text := "hi there", context := [] }],
          nextId := 1 }
        { chunkId := "chunk_", text := "hi there", context := [] } .throws).chunks).processedChunks
      = (getStats [{ id := "chunk_", text := "hi there", timestamp := 0,
                     isFinal := true, corrected := none, confidence := none,
                     isProcessing := true }]).processedChunks + 1 :=
  oracle_throw_fallback
    { chunks := [{ id := "chunk_", text := "hi there", timestamp := 0,
                   isFinal := true, corrected := none, confidence := none,
                   isProcessing := true }],
      pending := [{ chunkId := "chunk_", text := "hi there", context := [] }],
      nextId := 1 }
    { chunkId := "chunk_", text := "hi there", context := [] }
    { id := "chunk_", text := "hi there", timestamp := 0,
      isFinal := true, corrected := none, confidence := none,
      isProcessing := true }
    (by simp) (by simp) rfl (by simp) (by decide) rfl

/-- C4: a second `processChunk` call on a chunk that is already processing
or already carries a (non-empty, as every reachable correction is)
corrected text is a no-op on the whole state, so no second Oracle request
is issued for it. -/
theorem processChunk_second_call_noop (s : ProcState) (chunkId : String)
    (i : Nat) (c : TranscriptChunk)
    (hfind : s.chunks.findIdx? (fun d => d.id = chunkId) = some i)
    (hget : s.chunks[i]? = some c)
    (hguard : c.isProcessing = true ∨ ∃ v, c.corrected = some v ∧ v ≠ "") :
    processChunkStart s chunkId = s := by
  have hg : (c.isProcessing || truthyOpt c.corrected) = true := by
    rcases hguard with h | ⟨v, hv, hne⟩
    · simp [h]
    · simp [truthyOpt, hv, hne]
  simp only [processChunkStart, hfind, hget, hg, if_true]

/-- Witness for C4 on a store whose only chunk is processing. -/
theorem processChunk_second_call_noop_witness :
    processChunkStart
      { chunks := [{ id := "chunk_", text := "hi there", timestamp := 0,
                     isFinal := true, corrected := none, confidence := none,
                     isProcessing := true }],
        pending := [{ chunkId := "chunk_", text := "hi there", context := [] }],
        nextId := 1 } "chunk_" =
      { chunks := [{ id := "chunk_", text := "hi there", timestamp := 0,
                     isFinal := true, corrected := none, confidence := none,
                     isProcessing := true }],
        pending := [{ chunkId := "chunk_", text := "hi there", context := [] }],
        nextId := 1 } :=
  processChunk_second_call_noop _ "chunk_" 0
    { id := "chunk_", text := "hi there", timestamp := 0,
      isFinal := true, corrected := none, confidence := none,
      isProcessing := true }
    (by decide) (by decide) (Or.inl rfl)

/-- C5: the context computed for the chunk at a positive position is the
space-joined corrected-if-available-else-raw text of every prior chunk in
insertion order (as the single context entry), and the chunk at position
zero gets the empty context.  The side conditions say the join is its own
trimmed form and non-empty, which holds for every reachable store since
chunk texts are trimmed and non-empty. -/
theorem context_is_full_prior_join (chunks : List TranscriptChunk) (chunkIndex : Nat)
    (hpos : 0 < chunkIndex)
    (hj : jsTrim (String.intercalate " " ((chunks.take chunkIndex).map correctedOrText))
        = String.intercalate " " ((chunks.take chunkIndex).map correctedOrText))
    (hne : String.intercalate " " ((chunks.take chunkIndex).map correctedOrText) ≠ "") :
    getFullContextForChunk chunks chunkIndex =
      [String.intercalate " " ((chunks.take chunkIndex).map correctedOrText)] ∧
    getFullContextForChunk chunks 0 = [] := by
  constructor
  · unfold getFullContextForChunk
    rw [if_neg (Nat.pos_iff_ne_zero.mp hpos)]
    simp only [hj]
    rw [if_neg hne]
  · simp [getFullContextForChunk]

/-- Witness for C5: three chunks, the first corrected, context for the
third. -/
theorem context_is_full_prior_join_witness :
    getFullContextForChunk
      [{ id := "chunk_", text := "one two", timestamp := 0, isFinal := true,
         corrected := some "first part", confidence := some 1, isProcessing := false },
       { id := "chunk_x", text := "three four", timestamp := 1, isFinal := true,
         corrected := none, confidence := none, isProcessing := false },
       { id := "chunk_xx", text := "five six", timestamp := 2, isFinal := true,
         corrected := none, confidence := none, isProcessing := false }] 2 =
      ["first part three four"] :=
  (context_is_full_prior_join _ 2 (by decide) (by decide) (by decide)).1

/-- C6: `addChunk` on text that trims to empty leaves the chunk list (and
the pending requests) unchanged; on text with non-empty trim it appends
exactly one chunk holding the trimmed text — so the raw transcript is the
trimmed join ending in that text as its final segment — and one Oracle
request is issued for the new chunk exactly when `isFinal` holds or the
trimmed length exceeds 10 characters. -/
theorem addChunk_ingestion_spec (s : ProcState) (text : String) (isFinal : Bool)
    (hfresh : ∀ c ∈ s.chunks, c.id ≠ mkChunkId s.nextId) :
    (jsTrim text = "" →
      (addChunk s text isFinal).2.chunks = s.chunks ∧
      (addChunk s text isFinal).2.pending = s.pending) ∧
    (jsTrim text ≠ "" →
      ((addChunk s text isFinal).2.chunks.map (fun c => c.text)
          = s.chunks.map (fun c => c.text) ++ [jsTrim text]) ∧
      getRawTranscript (addChunk s text isFinal).2.chunks =
        jsTrim (String.intercalate " "
          (s.chunks.map (fun c => c.text) ++ [jsTrim text])) ∧
      (if (isFinal || (jsTrim text).length > 10) = true then
        ∃ ctx, (addChunk s text isFinal).2.pending
            = s.pending ++ [{ chunkId := mkChunkId s.nextId
                              text := jsTrim text, context := ctx }]
       else (addChunk s text isFinal).2.pending = s.pending)) := by
  constructor
  · intro hb
    rw [addChunk_blank s text isFinal hb]
    exact ⟨rfl, rfl⟩
  · intro hb
    by_cases htrig : (isFinal || (jsTrim text).length > 10) = true
    · rw [addChunk_trigger s text isFinal hfresh hb htrig]
      have hmap : (s.chunks ++
          ([{ freshChunk s text isFinal with isProcessing := true }] :
            List TranscriptChunk)).map (fun c => c.text) =
          s.chunks.map (fun c => c.text) ++ [jsTrim text] := by
        rw [List.map_append]
        rfl
      refine ⟨hmap, ?_, ?_⟩
      · unfold getRawTranscript
        rw [hmap]
      · rw [if_pos htrig]
        exact ⟨_, rfl⟩
    · rw [addChunk_noTrigger s text isFinal hb (by simpa using htrig)]
      have hmap : (s.chunks ++ [freshChunk s text isFinal]).map
            (fun c => c.text) =
          s.chunks.map (fun c => c.text) ++ [jsTrim text] := by
        rw [List.map_append]
        rfl
      refine ⟨hmap, ?_, ?_⟩
      · unfold getRawTranscript
        rw [hmap]
      · rw [if_neg htrig]

/-- Witness for C6: a long interim fragment is appended with its trimmed
text, and an all-blank final fragment is a no-op. -/
theorem addChunk_ingestion_spec_witness :
    ((addChunk initState "  hello there everyone  " false).2.chunks.map
        (fun c => c.text)
      = initState.chunks.map (fun c => c.text) ++
        [jsTrim "  hello there everyone  "]) ∧
    (addChunk initState "   " true).2.chunks = initState.chunks :=
  ⟨((addChunk_ingestion_spec initState "  hello there everyone  " false
      (by intro c hc; cases hc)).2 (by decide)).1,
   ((addChunk_ingestion_spec initState "   " true
      (by intro c hc; cases hc)).1 (by decide)).1⟩

/-- C7: after `clear()` the store reports zero chunks and empty raw and
processed transcripts, and this stays true under any sequence of stale
completions of requests that were in flight at clear time — a stale
completion never resurrects removed chunks or text. -/
theorem clear_total_and_stale_discarded (s : ProcState)
    (completions : List (PendingReq × CallOutcome)) :
    ((completions.foldl (fun t rc => stepComplete t rc.1 rc.2)
        (clearChunks s)).chunks = []) ∧
    (getStats (completions.foldl (fun t rc => stepComplete t rc.1 rc.2)
        (clearChunks s)).chunks).totalChunks = 0 ∧
    getProcessedTranscript (completions.foldl (fun t rc => stepComplete t rc.1 rc.2)
        (clearChunks s)).chunks = "" ∧
    getRawTranscript (completions.foldl (fun t rc => stepComplete t rc.1 rc.2)
        (clearChunks s)).chunks = "" := by
  have hnil : (completions.foldl (fun t rc => stepComplete t rc.1 rc.2)
      (clearChunks s)).chunks = [] :=
    foldl_complete_chunks_nil _ _ rfl
  rw [hnil]
  exact ⟨rfl, rfl, getProcessedTranscript_nil, getRawTranscript_nil⟩

/-- C8: the confidence heuristic is exactly 1 on byte-identical texts, and
on different texts it equals the maximum of 0.3 and the shared-word
fraction over the longer word count, which always lies in the closed
interval between 0.3 and 1. -/
theorem calculateConfidence_spec (original corrected : String) :
    (original = corrected → calculateConfidence original corrected = 1) ∧
    (original ≠ corrected →
      calculateConfidence original corrected =
        max (3 / 10)
          ((((jsSplitWs (jsToLower original)).filter
              (fun w => (jsSplitWs (jsToLower corrected)).contains w)).length : ℚ) /
            ((max (jsSplitWs (jsToLower original)).length
                (jsSplitWs (jsToLower corrected)).length : Nat) : ℚ)) ∧
      3 / 10 ≤ calculateConfidence original corrected ∧
      calculateConfidence original corrected ≤ 1) := by
  constructor
  · intro h
    simp [calculateConfidence, h]
  · intro h
    have hform : calculateConfidence original corrected =
        max (3 / 10)
          ((((jsSplitWs (jsToLower original)).filter
              (fun w => (jsSplitWs (jsToLower corrected)).contains w)).length : ℚ) /
            ((max (jsSplitWs (jsToLower original)).length
                (jsSplitWs (jsToLower corrected)).length : Nat) : ℚ)) := by
      simp [calculateConfidence, h]
    refine ⟨hform, ?_, ?_⟩
    · rw [hform]; exact le_max_left _ _
    · rw [hform]
      have hm : 0 < max (jsSplitWs (jsToLower original)).length
          (jsSplitWs (jsToLower corrected)).length :=
        lt_of_lt_of_le (jsSplitWs_length_pos _) (le_max_left _ _)
      have hk : ((jsSplitWs (jsToLower original)).filter
          (fun w => (jsSplitWs (jsToLower corrected)).contains w)).length ≤
          max (jsSplitWs (jsToLower original)).length
            (jsSplitWs (jsToLower corrected)).length :=
        le_trans (List.length_filter_le _ _) (le_max_left _ _)
      have hdiv : ((((jsSplitWs (jsToLower original)).filter
            (fun w => (jsSplitWs (jsToLower corrected)).contains w)).length : ℚ) /
            ((max (jsSplitWs (jsToLower original)).length
                (jsSplitWs (jsToLower corrected)).length : Nat) : ℚ)) ≤ 1 := by
        rw [div_le_one (by exact_mod_cast hm)]
        exact_mod_cast hk
      exact max_le (by norm_num) hdiv

/-- Witness for C8 on identical and on fully different texts. -/
theorem calculateConfidence_spec_witness :
    calculateConfidence "same text" "same text" = 1 ∧
    (3 / 10 : ℚ) ≤ calculateConfidence "hello world" "goodbye moon" ∧
    calculateConfidence "hello world" "goodbye moon" ≤ 1 :=
  ⟨(calculateConfidence_spec "same text" "same text").1 rfl,
   ((calculateConfidence_spec "hello world" "goodbye moon").2 (by decide)).2.1,
   ((calculateConfidence_spec "hello world" "goodbye moon").2 (by decide)).2.2⟩

/-- C9: flushing a buffer that contains a known command pattern with an
active selection acts through the local pattern table, returning true with
no network call; with no selection the pattern stage yields false
regardless of the buffer, and with no credential the whole flush returns
false without any network call. -/
theorem flush_pattern_selection_spec (st : CmdProcState) (ed : EditorState)
    (ai : StreamingAIOutcome)
    (hguard : st.isProcessingStream = false)
    (hbuf : jsTrim st.streamBuffer ≠ "")
    (hpat : ∃ cmd ∈ commands, ∃ p ∈ cmd.patterns,
      jsIncludes (jsTrim (jsToLower st.streamBuffer)) p = true) :
    (ed.selectionFrom ≠ ed.selectionTo →
      (processBufferedStream st ed ai).acted = true ∧
      (processBufferedStream st ed ai).networkCalled = false) ∧
    (ed.selectionFrom = ed.selectionTo →
      processPatternMatching st.streamBuffer ed = false ∧
      (st.grokApiKey = none →
        (processBufferedStream st ed ai).acted = false ∧
        (processBufferedStream st ed ai).networkCalled = false)) := by
  constructor
  · intro hsel
    have hmatch : processPatternMatching st.streamBuffer ed = true := by
      unfold processPatternMatching
      rw [if_pos hsel]
      rw [List.any_eq_true]
      obtain ⟨cmd, hcmd, p, hp, hinc⟩ := hpat
      exact ⟨cmd, hcmd, List.any_eq_true.mpr ⟨p, hp, hinc⟩⟩
    unfold processBufferedStream
    rw [if_neg (by simp [hguard, hbuf]), if_pos hmatch]
    exact ⟨rfl, rfl⟩
  · intro hsel
    have hmatch : processPatternMatching st.streamBuffer ed = false := by
      unfold processPatternMatching
      rw [if_neg (by simp [hsel])]
    refine ⟨hmatch, fun hkey => ?_⟩
    unfold processBufferedStream
    rw [if_neg (by simp [hguard, hbuf]), if_neg (by simp [hmatch])]
    simp only [hkey]
    split <;> exact ⟨rfl, rfl⟩

/-- Witness for C9 with the buffer "make this bold", once with a selection
and once without (and no credential). -/
theorem flush_pattern_selection_spec_witness :
    ((processBufferedStream
        { streamBuffer := "make this bold", isProcessingStream := false
          grokApiKey := none }
        { selectionFrom := 0, selectionTo := 4 } StreamingAIOutcome.notApplied).acted
      = true ∧
     (processBufferedStream
        { streamBuffer := "make this bold", isProcessingStream := false
          grokApiKey := none }
        { selectionFrom := 0, selectionTo := 4 } StreamingAIOutcome.notApplied).networkCalled
      = false) ∧
    (processPatternMatching "make this bold"
        { selectionFrom := 2, selectionTo := 2 } = false ∧
     (processBufferedStream
        { streamBuffer := "make this bold", isProcessingStream := false
          grokApiKey := none }
        { selectionFrom := 2, selectionTo := 2 } StreamingAIOutcome.notApplied).acted
      = false ∧
     (processBufferedStream
        { streamBuffer := "make this bold", isProcessingStream := false
          grokApiKey := none }
        { selectionFrom := 2, selectionTo := 2 } StreamingAIOutcome.notApplied).networkCalled
      = false) :=
  ⟨(flush_pattern_selection_spec
      { streamBuffer := "make this bold", isProcessingStream := false
        grokApiKey := none }
      { selectionFrom := 0, selectionTo := 4 } StreamingAIOutcome.notApplied
      rfl (by decide)
      ⟨{ patterns := ["make this bold", "bold this", "make bold", "bold"]
         description := "Make selected text bold", requiresSelection := true },
       by decide, "make this bold", by decide, by decide⟩).1 (by decide),
   let h2 := (flush_pattern_selection_spec
      { streamBuffer := "make this bold", isProcessingStream := false
        grokApiKey := none }
      { selectionFrom := 2, selectionTo := 2 } StreamingAIOutcome.notApplied
      rfl (by decide)
      ⟨{ patterns := ["make this bold", "bold this", "make bold", "bold"]
         description := "Make selected text bold", requiresSelection := true },
       by decide, "make this bold", by decide, by decide⟩).2 rfl
   ⟨h2.1, h2.2 rfl⟩⟩

/-- C10: `addChunk` on text that trims to empty still returns a freshly
generated non-empty id, no chunk carries that id, the store is unchanged,
and a later `processChunk` with that id is a no-op. -/
theorem addChunk_blank_text_id (s : ProcState) (text : String) (isFinal : Bool)
    (htrim : jsTrim text = "")
    (hfresh : ∀ c ∈ s.chunks, c.id ≠ mkChunkId s.nextId) :
    (addChunk s text isFinal).1 ≠ "" ∧
    (addChunk s text isFinal).2.chunks = s.chunks ∧
    (addChunk s text isFinal).2.pending = s.pending ∧
    (∀ c ∈ (addChunk s text isFinal).2.chunks, c.id ≠ (addChunk s text isFinal).1) ∧
    processChunkStart (addChunk s text isFinal).2 (addChunk s text isFinal).1 =
      (addChunk s text isFinal).2 := by
  rw [addChunk_blank s text isFinal htrim]
  refine ⟨mkChunkId_ne_empty _, rfl, rfl, hfresh, ?_⟩
  have hnone : ({ s with nextId := s.nextId + 1 } : ProcState).chunks.findIdx?
      (fun d => d.id = mkChunkId s.nextId) = none := by
    rw [List.findIdx?_eq_none_iff]
    intro c hc
    simpa using hfresh c hc
  simp only [processChunkStart, hnone]

/-- Witness for C10 on the fresh store and blank text. -/
theorem addChunk_blank_text_id_witness :
    (addChunk initState "   " true).1 ≠ "" ∧
    (addChunk initState "   " true).2.chunks = initState.chunks ∧
    (addChunk initState "   " true).2.pending = initState.pending ∧
    (∀ c ∈ (addChunk initState "   " true).2.chunks,
      c.id ≠ (addChunk initState "   " true).1) ∧
    processChunkStart (addChunk initState "   " true).2
        (addChunk initState "   " true).1 =
      (addChunk initState "   " true).2 :=
  addChunk_blank_text_id initState "   " true (by decide) (by intro c hc; cases hc)

end NoteFlux
